import Mathlib

/-
  Verification development for PyWordNetSimilarity.

  Shallow embedding of the three source modules:
    - wordnet_wrappers.py          (relation-expansion helpers over a WordNet database)
    - wordnet_similarity_dat_reader.py (relation-file compiler)
    - extended_lesk.py             (overlap scorer and relatedness aggregator)

  Modelling conventions:
    - A WordNet synset is an opaque identifier (Nat); the database is a structure of
      lookup functions (the nltk corpus reader, which is external to the repository).
    - Python lists of mixed synsets / lowercased word strings / uuid separators are
      lists of `Item`.  `Item.sep n` models `int(uuid4())`: the only property the code
      relies on is that each generated value is fresh (distinct from every value already
      in scope), so uuids are modelled by a monotone counter, threaded explicitly.
    - Python code that would raise on ill-typed input (e.g. calling synset methods on a
      string) is Option/Except valued; `none` / `.error` marks the raise.
    - lru_cache memoization is referentially transparent and is modelled by plain
      functions.
-/

namespace PyWNSim

/-! ## List/string helpers modelling Python's str primitives -/

/-- Python `str.lower()` (character-wise ASCII lowering, as `Char.toLower`). -/
def lowerStr (s : String) : String :=
  String.mk (s.toList.map Char.toLower)

/-- Helper for `splitOnChar`: accumulates the current piece in reverse. -/
def splitOnCharGo (c : Char) : List Char → List Char → List (List Char)
  | acc, [] => [acc.reverse]
  | acc, x :: xs =>
    if x = c then acc.reverse :: splitOnCharGo c [] xs
    else splitOnCharGo c (x :: acc) xs

/-- Python `str.split(sep)` for a one-character separator (keeps empty pieces). -/
def splitOnChar (c : Char) (l : List Char) : List (List Char) :=
  splitOnCharGo c [] l

/-- Helper for `pysplitL`: accumulates the current word in reverse. -/
def pysplitGo : List Char → List Char → List (List Char)
  | cur, [] => if cur.isEmpty then [] else [cur.reverse]
  | cur, c :: cs =>
    if c.isWhitespace then
      if cur.isEmpty then pysplitGo [] cs else cur.reverse :: pysplitGo [] cs
    else pysplitGo (c :: cur) cs

/-- Python `str.split()` with no argument: split on whitespace runs, dropping empties. -/
def pysplitL (l : List Char) : List (List Char) :=
  pysplitGo [] l

/-- Python `str.split()` on a `String`, returning `String` pieces. -/
def pysplit (s : String) : List String :=
  (pysplitL s.toList).map String.mk

/-- Python `str.strip()`: drop leading and trailing whitespace. -/
def trimWS (l : List Char) : List Char :=
  ((l.dropWhile Char.isWhitespace).reverse.dropWhile Char.isWhitespace).reverse

/-- Python `s[-n:]` (for `n ≥ 1`; clamps to the whole list when `n > length`). -/
def takeRightL (n : Nat) (l : List Char) : List Char :=
  l.drop (l.length - n)

/-- Python `s[:-n]` (for `n ≥ 1`; clamps to the empty list when `n > length`). -/
def dropRightL (n : Nat) (l : List Char) : List Char :=
  l.take (l.length - n)

/-- Does list `h` start with list `n`? -/
def begWith : List Char → List Char → Bool
  | _, [] => true
  | [], _ :: _ => false
  | x :: xs, y :: ys => y = x && begWith xs ys

/-- Does list `h` contain `n` as a contiguous sublist? -/
def hasSub : List Char → List Char → Bool
  | [], n => n.isEmpty
  | x :: xs, n => begWith (x :: xs) n || hasSub xs n

/-- Substring containment on strings (Python `needle in haystack`). -/
def strContains (hay needle : String) : Bool :=
  hasSub hay.toList needle.toList

/-! ## Data model -/

/-- One element of the heterogeneous Python lists this library passes around:
a synset, a lowercased word string, or a uuid separator marker. -/
inductive Item where
  | syn (id : Nat)
  | word (s : String)
  | sep (n : Nat)
deriving DecidableEq

/-- The WordNet database interface consumed by wordnet_wrappers.py
(nltk.corpus.wordnet; external to the repository).  Synsets and lemmas are
opaque identifiers; every accessor of the nltk API used by the source is a field. -/
structure WNDB where
  definition : Nat → String
  examples : Nat → List String
  lemmas : Nat → List Nat
  lemma_name : Nat → String
  lemma_synset : Nat → Nat
  lemma_also_sees : Nat → List Nat
  lemma_pertainyms : Nat → List Nat
  also_sees : Nat → List Nat
  hypernyms : Nat → List Nat
  instance_hypernyms : Nat → List Nat
  hyponyms : Nat → List Nat
  instance_hyponyms : Nat → List Nat
  member_holonyms : Nat → List Nat
  part_holonyms : Nat → List Nat
  substance_holonyms : Nat → List Nat
  member_meronyms : Nat → List Nat
  part_meronyms : Nat → List Nat
  substance_meronyms : Nat → List Nat
  attributes : Nat → List Nat
  similar_tos : Nat → List Nat

/-! ## wordnet_wrappers.py: caching wrappers (single-synset helpers) -/

/-- Wrapper for `Synset.lemmas()`. -/
def _get_lemmas (db : WNDB) (synset : Nat) : List Nat :=
  db.lemmas synset

/-- `[l.name().lower() for l in _get_lemmas(synset)]`. -/
def _get_lemma_names (db : WNDB) (synset : Nat) : List String :=
  (_get_lemmas db synset).map (fun l => lowerStr (db.lemma_name l))

/-- `synset.also_sees()` (synset level). -/
def _get_also_sees (db : WNDB) (synset : Nat) : List Nat :=
  db.also_sees synset

/-- `synset.hypernyms() + synset.instance_hypernyms()`. -/
def _get_hypernyms (db : WNDB) (synset : Nat) : List Nat :=
  db.hypernyms synset ++ db.instance_hypernyms synset

/-- `synset.hyponyms() + synset.instance_hyponyms()`. -/
def _get_hyponyms (db : WNDB) (synset : Nat) : List Nat :=
  db.hyponyms synset ++ db.instance_hyponyms synset

/-- `synset.member_holonyms() + synset.part_holonyms() + synset.substance_holonyms()`. -/
def _get_holonyms (db : WNDB) (synset : Nat) : List Nat :=
  db.member_holonyms synset ++ db.part_holonyms synset ++ db.substance_holonyms synset

/-- `synset.member_meronyms() + synset.part_meronyms() + synset.substance_meronyms()`. -/
def _get_meronyms (db : WNDB) (synset : Nat) : List Nat :=
  db.member_meronyms synset ++ db.part_meronyms synset ++ db.substance_meronyms synset

/-- `synset.attributes()`. -/
def _get_attributes (db : WNDB) (synset : Nat) : List Nat :=
  db.attributes synset

/-- Source line 90: the body returns `synset.attributes()`, although the docstring
says it wraps `Synset.similar_tos()`.  The slip is preserved faithfully here. -/
def _get_similar_tos (db : WNDB) (synset : Nat) : List Nat :=
  db.attributes synset

/-- `[pertainym.synset() for lemma in _get_lemmas(synset) for pertainym in lemma.pertainyms()]`. -/
def _get_pertainyms (db : WNDB) (synset : Nat) : List Nat :=
  ((_get_lemmas db synset).map (fun l => db.lemma_pertainyms l)).flatten

/-! ## wordnet_wrappers.py: group-level WordNet functions.

The `get_*` functions take and return lists of synsets.  The `concat_*`
functions take a list of synsets and a uuid counter and return word/separator
items plus the advanced counter. -/

/-- `get_also_sees`: synset-level also_sees plus lemma-level also_sees mapped back
to their owning synsets, merged in one list. -/
def get_also_sees (db : WNDB) (synsets : List Nat) : List Nat :=
  (synsets.map (fun s =>
    _get_also_sees db s ++
      ((_get_lemmas db s).map (fun l =>
        (db.lemma_also_sees l).map (fun a => db.lemma_synset a))).flatten)).flatten

/-- `get_hypernyms`. -/
def get_hypernyms (db : WNDB) (synsets : List Nat) : List Nat :=
  (synsets.map (fun s => _get_hypernyms db s)).flatten

/-- `get_hyponyms`. -/
def get_hyponyms (db : WNDB) (synsets : List Nat) : List Nat :=
  (synsets.map (fun s => _get_hyponyms db s)).flatten

/-- `get_holonyms`. -/
def get_holonyms (db : WNDB) (synsets : List Nat) : List Nat :=
  (synsets.map (fun s => _get_holonyms db s)).flatten

/-- `get_meronyms`. -/
def get_meronyms (db : WNDB) (synsets : List Nat) : List Nat :=
  (synsets.map (fun s => _get_meronyms db s)).flatten

/-- `get_attributes`. -/
def get_attributes (db : WNDB) (synsets : List Nat) : List Nat :=
  (synsets.map (fun s => _get_attributes db s)).flatten

/-- `get_similar_tos` (inherits the `_get_similar_tos` slip). -/
def get_similar_tos (db : WNDB) (synsets : List Nat) : List Nat :=
  (synsets.map (fun s => _get_similar_tos db s)).flatten

/-- `get_pertainyms`. -/
def get_pertainyms (db : WNDB) (synsets : List Nat) : List Nat :=
  (synsets.map (fun s => _get_pertainyms db s)).flatten

/-- Words of one definition: `synset.definition().lower().split()`. -/
def defWords (db : WNDB) (s : Nat) : List Item :=
  (pysplit (lowerStr (db.definition s))).map Item.word

/-- `concat_definitions`, tail: a fresh separator before each subsequent definition. -/
def concatDefsRest (db : WNDB) : List Nat → Nat → List Item × Nat
  | [], c => ([], c)
  | s :: rest, c =>
    let p := concatDefsRest db rest (c + 1)
    (Item.sep c :: defWords db s ++ p.1, p.2)

/-- `concat_definitions(synsets)`: all definitions as one word list, with a fresh
separator between consecutive definitions (none before the first). -/
def concat_definitions (db : WNDB) (synsets : List Nat) (c : Nat) : List Item × Nat :=
  match synsets with
  | [] => ([], c)
  | s :: rest =>
    let p := concatDefsRest db rest c
    (defWords db s ++ p.1, p.2)

/-- Words of one example: `example.lower().split()`. -/
def exWords (ex : String) : List Item :=
  (pysplit (lowerStr ex)).map Item.word

/-- Inner loop of `concat_examples` over one synset's examples; `i` and `j` are the
enumeration indices, a separator is inserted whenever `i + j > 0`. -/
def concatExsInner : Nat → Nat → List String → Nat → List Item × Nat
  | _, _, [], c => ([], c)
  | i, j, e :: rest, c =>
    if 0 < i + j then
      let p := concatExsInner i (j + 1) rest (c + 1)
      (Item.sep c :: exWords e ++ p.1, p.2)
    else
      let p := concatExsInner i (j + 1) rest c
      (exWords e ++ p.1, p.2)

/-- Outer loop of `concat_examples` over the synsets. -/
def concatExsOuter (db : WNDB) : Nat → List Nat → Nat → List Item × Nat
  | _, [], c => ([], c)
  | i, s :: rest, c =>
    let p := concatExsInner i 0 (db.examples s) c
    let q := concatExsOuter db (i + 1) rest p.2
    (p.1 ++ q.1, q.2)

/-- `concat_examples(synsets)`. -/
def concat_examples (db : WNDB) (synsets : List Nat) (c : Nat) : List Item × Nat :=
  concatExsOuter db 0 synsets c

/-- Words of one lemma name, split on the multi-word joiner: `lemma_name.split("_")`. -/
def lemmaWords (name : String) : List Item :=
  ((splitOnChar (Char.ofNat 95) name.toList).map (fun w => Item.word (String.mk w)))

/-- Inner loop of `concat_lemmas` over one synset's lemma names. -/
def concatLemsInner : Nat → Nat → List String → Nat → List Item × Nat
  | _, _, [], c => ([], c)
  | i, j, nm :: rest, c =>
    if 0 < i + j then
      let p := concatLemsInner i (j + 1) rest (c + 1)
      (Item.sep c :: lemmaWords nm ++ p.1, p.2)
    else
      let p := concatLemsInner i (j + 1) rest c
      (lemmaWords nm ++ p.1, p.2)

/-- Outer loop of `concat_lemmas` over the synsets. -/
def concatLemsOuter (db : WNDB) : Nat → List Nat → Nat → List Item × Nat
  | _, [], c => ([], c)
  | i, s :: rest, c =>
    let p := concatLemsInner i 0 (_get_lemma_names db s) c
    let q := concatLemsOuter db (i + 1) rest p.2
    (p.1 ++ q.1, q.2)

/-- `concat_lemmas(synsets)`. -/
def concat_lemmas (db : WNDB) (synsets : List Nat) (c : Nat) : List Item × Nat :=
  concatLemsOuter db 0 synsets c

/-! ## wordnet_similarity_dat_reader.py -/

/-- The eleven wrapper functions a relation token can map to
(`WORDNET_SIM_FUNC_MAP` values plus the never-mapped `get_hyponyms`). -/
inductive RelFunc where
  | get_also_sees
  | get_attributes
  | concat_examples
  | concat_definitions
  | get_holonyms
  | get_hypernyms
  | get_hyponyms
  | get_meronyms
  | get_pertainyms
  | get_similar_tos
  | concat_lemmas
deriving DecidableEq

/-- `WORDNET_SIM_FUNC_MAP` (dat reader lines 10-21).  Note line 16 of the source:
`"hypo"` is mapped to `get_holonyms`, not `get_hyponyms`. -/
def WORDNET_SIM_FUNC_MAP (tok : String) : Option RelFunc :=
  if tok = "also" then some RelFunc.get_also_sees
  else if tok = "attr" then some RelFunc.get_attributes
  else if tok = "example" then some RelFunc.concat_examples
  else if tok = "glos" then some RelFunc.concat_definitions
  else if tok = "holo" then some RelFunc.get_holonyms
  else if tok = "hype" then some RelFunc.get_hypernyms
  else if tok = "hypo" then some RelFunc.get_holonyms
  else if tok = "mero" then some RelFunc.get_meronyms
  else if tok = "pert" then some RelFunc.get_pertainyms
  else if tok = "sim" then some RelFunc.get_similar_tos
  else if tok = "syns" then some RelFunc.concat_lemmas
  else none

/-- Model of Python `float()` restricted to the decimal literals that can appear
as weights: optional sign, digits, optional single decimal point.  (`float` is a
Python builtin, external to the repository.) -/
def natOfDigits (l : List Char) : Nat :=
  l.foldl (fun acc c => acc * 10 + (c.toNat - 48)) 0

/-- Parse a decimal literal into a rational, `none` if malformed. -/
def parseFloat (s : String) : Option Rat :=
  let cs := s.toList
  let p : Bool × List Char :=
    match cs with
    | ch :: t => if ch = Char.ofNat 45 then (true, t)
                 else if ch = Char.ofNat 43 then (false, t)
                 else (false, cs)
    | [] => (false, [])
  match splitOnChar (Char.ofNat 46) p.2 with
  | [ds] =>
    if ds ≠ [] ∧ ds.all Char.isDigit then
      some (if p.1 then -(natOfDigits ds : Rat) else (natOfDigits ds : Rat))
    else none
  | [ds, fs] =>
    if (ds ≠ [] ∨ fs ≠ []) ∧ ds.all Char.isDigit ∧ fs.all Char.isDigit then
      let v : Rat := (natOfDigits ds : Rat) + (natOfDigits fs : Rat) / ((10 : Rat) ^ fs.length)
      some (if p.1 then -v else v)
    else none
  | _ => none

/-- The WordNet::Similarity documentation URL quoted by every parser error. -/
def relFileDocURL : String :=
  "http://search.cpan.org/dist/WordNet-Similarity/lib/WordNet/Similarity/extended_lesk.pm#RELATION_FILE_FORMAT"

/-- The missing-header error message (dat reader line 44).  It interpolates the
file location, not the header line. -/
def headerErrMsg (floc : String) : String :=
  "Relation file does is not in WordNet::Similarity format; Missing header.\n" ++
    floc ++ "\n\nPlease see " ++ relFileDocURL

/-- Shape of the four line-level error messages: each interpolates the
(lowercased) offending line and the file location.  (The Python original wraps
the line in single quotes and sometimes appends `str(e)`; both are omitted here,
which does not affect whether the line content appears in the message.) -/
def lineErrMsg (floc line kind : String) : String :=
  "Relation file does is not in WordNet::Similarity format; line " ++ line ++
    kind ++ ".\n" ++ floc ++ "\n\nPlease see " ++ relFileDocURL

/-- Kind text of the split error (dat reader line 54). -/
def improperKind : String := " improperly formatted"

/-- Kind text of the weight error (dat reader line 66). -/
def weightKind : String := " contains invalid weight"

/-- Kind text of the bracket error (dat reader line 86). -/
def bracketKind : String := " does not contain properly formated functions"

/-- Kind text of the unknown-function error (dat reader line 100). -/
def unknownKind : String := " contains an unknown function"

/-- Remove the trailing close-brackets produced by `split("(")` (dat reader
lines 72-86): with `n = pieces - 1`, the last `n` characters of the last piece
must be `")" * n`; they are stripped, otherwise the bracket check fails. -/
def stripBrackets (fstrs : List (List Char)) : Option (List (List Char)) :=
  let n := fstrs.length - 1
  if n = 0 then some fstrs
  else
    let lastS := fstrs.getLastD []
    let trailing := takeRightL n lastS
    let newLast := dropRightL n lastS
    if trailing = List.replicate n (Char.ofNat 41) then
      some (fstrs.dropLast ++ [newLast])
    else none

/-- Token list of one chain: `split("(")` then strip trailing brackets. -/
def chainTokens (s : List Char) : Option (List (List Char)) :=
  stripBrackets (splitOnChar (Char.ofNat 40) s)

/-- Is this token one whose mapped function already returns words
(dat reader lines 103-106)? -/
def isTerminalTok (t : List Char) : Bool :=
  t = "glos".toList || t = "example".toList || t = "syns".toList

/-- Append an implicit `concat_definitions` unless the chain's final token is
terminal (dat reader lines 102-107). -/
def finishChain (toks : List (List Char)) (fs : List RelFunc) : List RelFunc :=
  if isTerminalTok (toks.getLastD []) then fs else fs ++ [RelFunc.concat_definitions]

/-- The optional-weight step (dat reader lines 56-66): when the part right of
the `-` splits into exactly two whitespace-separated fields, the second must
parse as a float (else the weight error); otherwise the part is kept whole and
the weight defaults to 1. -/
def parseWeightPart (bL0 : List Char) : Option (List Char × Rat) :=
  match pysplitL bL0 with
  | [b1, wcs] =>
    match parseFloat (String.mk wcs) with
    | some q => some (b1, q)
    | none => none
  | _ => some (bL0, 1)

/-- Compile one body line of a relation file (dat reader lines 47-110). -/
def compileLine (floc line0 : String) :
    Except String (List RelFunc × List RelFunc × Rat) :=
  match splitOnChar (Char.ofNat 45) (lowerStr line0).toList with
  | [aL, bL0] =>
    match parseWeightPart bL0 with
    | none => Except.error (lineErrMsg floc (lowerStr line0) weightKind)
    | some (bL, weight) =>
      match chainTokens aL, chainTokens (trimWS bL) with
      | some atoks, some btoks =>
        match atoks.mapM (fun t => WORDNET_SIM_FUNC_MAP (String.mk t)),
              btoks.mapM (fun t => WORDNET_SIM_FUNC_MAP (String.mk t)) with
        | some afs, some bfs =>
          Except.ok (finishChain atoks afs, finishChain btoks bfs, weight)
        | _, _ => Except.error (lineErrMsg floc (lowerStr line0) unknownKind)
      | _, _ => Except.error (lineErrMsg floc (lowerStr line0) bracketKind)
  | _ => Except.error (lineErrMsg floc (lowerStr line0) improperKind)

/-- The body loop of `read_relation_file`: compile each line in order,
aborting at the first failure (the Python loop raises there). -/
def compileLines (floc : String) : List String →
    Except String (List (List RelFunc × List RelFunc × Rat))
  | [] => Except.ok []
  | l :: rest =>
    match compileLine floc l with
    | Except.error e => Except.error e
    | Except.ok trip =>
      match compileLines floc rest with
      | Except.error e => Except.error e
      | Except.ok trips => Except.ok (trip :: trips)

/-- `read_relation_file`, over the file's lines (first line is the header).
The header must strip to `"RelationFile"`; each further line compiles via
`compileLine`, the first failure aborting the whole read. -/
def read_relation_file (floc : String) (lines : List String) :
    Except String (List (List RelFunc × List RelFunc × Rat)) :=
  match lines with
  | [] => Except.error (headerErrMsg floc)
  | header :: rest =>
    if String.mk (trimWS header.toList) = "RelationFile" then
      compileLines floc rest
    else Except.error (headerErrMsg floc)

/-! ## extended_lesk.py: the token-overlap scorer

`difflib.SequenceMatcher.find_longest_match` (autojunk=False, no junk predicate)
returns `(i, j, k)` with `a[i:i+k] == b[j:j+k]`, `k` maximal, and among maximal
blocks the smallest `i`, then the smallest `j` (the documented contract).  It is
modelled by a fold over candidate start pairs in lexicographic order, updating
only on strictly longer matches, which realises exactly that tie-break. -/

/-- Length of the longest common prefix of two item lists. -/
def commonPrefixLen : List Item → List Item → Nat
  | x :: xs, y :: ys => if x = y then commonPrefixLen xs ys + 1 else 0
  | _, _ => 0

/-- Length of the longest common run starting at `i` in `a` and `j` in `b`. -/
def matchLen (a b : List Item) (i j : Nat) : Nat :=
  commonPrefixLen (a.drop i) (b.drop j)

/-- All start pairs `(i, j)` with `i < la`, `j < lb`, in lexicographic order. -/
def pairsUpTo : Nat → Nat → List (Nat × Nat)
  | 0, _ => []
  | la + 1, lb => pairsUpTo la lb ++ (List.range lb).map (fun j => (la, j))

/-- Fold step of `find_longest_match`: keep the first candidate attaining each
strictly larger match length. -/
def flmGo (a b : List Item) : List (Nat × Nat) → Nat × Nat × Nat → Nat × Nat × Nat
  | [], best => best
  | p :: ps, best =>
    let k := matchLen a b p.1 p.2
    flmGo a b ps (if best.2.2 < k then (p.1, p.2, k) else best)

/-- `sm.find_longest_match(0, len(text_a), 0, len(text_b))`. -/
def find_longest_match (a b : List Item) : Nat × Nat × Nat :=
  flmGo a b (pairsUpTo a.length b.length) (0, 0, 0)

/-- `token in self.stopwords`: only word strings can be stopwords (a uuid int or
synset is never a member of a set of strings). -/
def isStopword (stop : List String) (it : Item) : Bool :=
  match it with
  | Item.word s => stop.contains s
  | _ => false

/-- `_getLeadingStopwordCount`: the number of leading stopwords. -/
def _getLeadingStopwordCount (stop : List String) (text : List Item) : Nat :=
  (text.takeWhile (fun t => isStopword stop t)).length

/-- `_lengthWithoutStopwords`: match length minus leading stopwords, then (if
still positive) minus trailing stopwords (leading stopwords of the reversal). -/
def _lengthWithoutStopwords (stop : List String) (matched_text : List Item) : Nat :=
  let match_length := matched_text.length - _getLeadingStopwordCount stop matched_text
  if 0 < match_length then
    match_length - _getLeadingStopwordCount stop matched_text.reverse
  else match_length

/-- `text[start:start+len] = [x]`: replace a slice by a single fresh separator. -/
def replaceSlice (l : List Item) (start len : Nat) (x : Item) : List Item :=
  l.take start ++ [x] ++ l.drop (start + len)

/-- Number of common occurrences of the two lists (cardinality of the multiset
intersection); the well-founded measure of the matching loop. -/
def interCount : List Item → List Item → Nat
  | [], _ => 0
  | x :: xs, b => if x ∈ b then 1 + interCount xs (b.erase x) else interCount xs b

/-- A strict upper bound for the separator indices occurring in a list. -/
def maxSepIdx (l : List Item) : Nat :=
  l.foldr (fun it m => match it with | Item.sep n => max (n + 1) m | _ => m) 0

/-- The `while match_found` loop of `getTextOverlapScore`, with an explicit fuel
(the loop in the source is unbounded; the termination theorem shows the fuel
used by `getTextOverlapScore` always suffices).  `c` is the uuid counter; each
iteration consumes the two fresh values `c` and `c + 1`. -/
def scoreLoop (stop : List String) : Nat → List Item → List Item → Nat → Option Nat
  | 0, _, _, _ => none
  | fuel + 1, a, b, c =>
    if 0 < (find_longest_match a b).2.2 then
      match scoreLoop stop fuel
          (replaceSlice a (find_longest_match a b).1 (find_longest_match a b).2.2 (Item.sep c))
          (replaceSlice b (find_longest_match a b).2.1 (find_longest_match a b).2.2
            (Item.sep (c + 1))) (c + 2) with
      | some s =>
        some (_lengthWithoutStopwords stop
          ((a.drop (find_longest_match a b).1).take (find_longest_match a b).2.2) ^ 2 + s)
      | none => none
    else some 0

/-- `getTextOverlapScore(text_a, text_b)`.  The starting counter dominates every
separator already present (uuid freshness); the fuel is the loop measure plus
one, shown sufficient by the termination theorem. -/
def getTextOverlapScore (stop : List String) (text_a text_b : List Item) : Option Nat :=
  scoreLoop stop (interCount text_a text_b + 1) text_a text_b
    (max (maxSepIdx text_a) (maxSepIdx text_b))

/-! ## extended_lesk.py: the relatedness aggregator -/

/-- Extract the synset ids of a group, `none` if any element is not a synset
(Python would raise an AttributeError on it). -/
def synIds? : List Item → Option (List Nat)
  | [] => some []
  | Item.syn i :: rest => (synIds? rest).map (fun l => i :: l)
  | _ => none

/-- Apply one compiled relation function to a value, threading the uuid counter.
Sense-to-sense functions require every element to be a synset and return synsets;
the three `concat_*` functions return word/separator items. -/
def applyFunc (db : WNDB) (f : RelFunc) (v : List Item) (c : Nat) :
    Option (List Item × Nat) :=
  match f with
  | RelFunc.get_also_sees => (synIds? v).map (fun ss => ((get_also_sees db ss).map Item.syn, c))
  | RelFunc.get_attributes => (synIds? v).map (fun ss => ((get_attributes db ss).map Item.syn, c))
  | RelFunc.get_holonyms => (synIds? v).map (fun ss => ((get_holonyms db ss).map Item.syn, c))
  | RelFunc.get_hypernyms => (synIds? v).map (fun ss => ((get_hypernyms db ss).map Item.syn, c))
  | RelFunc.get_hyponyms => (synIds? v).map (fun ss => ((get_hyponyms db ss).map Item.syn, c))
  | RelFunc.get_meronyms => (synIds? v).map (fun ss => ((get_meronyms db ss).map Item.syn, c))
  | RelFunc.get_pertainyms => (synIds? v).map (fun ss => ((get_pertainyms db ss).map Item.syn, c))
  | RelFunc.get_similar_tos => (synIds? v).map (fun ss => ((get_similar_tos db ss).map Item.syn, c))
  | RelFunc.concat_definitions => (synIds? v).map (fun ss => concat_definitions db ss c)
  | RelFunc.concat_examples => (synIds? v).map (fun ss => concat_examples db ss c)
  | RelFunc.concat_lemmas => (synIds? v).map (fun ss => concat_lemmas db ss c)

/-- `for a_func in a_funcs: text_a = a_func(text_a)`. -/
def applyChain (db : WNDB) : List RelFunc → List Item → Nat → Option (List Item × Nat)
  | [], v, c => some (v, c)
  | f :: fs, v, c =>
    match applyFunc db f v c with
    | some (v2, c2) => applyChain db fs v2 c2
    | none => none

/-- The loop of `getSynsetRelatedness` over the compiled relation triples,
accumulating `overlap_score * weight`. -/
def synsetRelGo (stop : List String) (db : WNDB) :
    List (List RelFunc × List RelFunc × Rat) → List Item → List Item → Rat → Nat →
    Option Rat
  | [], _, _, acc, _ => some acc
  | (a_funcs, b_funcs, weight) :: rest, sa, sb, acc, c =>
    match applyChain db a_funcs sa c with
    | none => none
    | some (text_a, c2) =>
      match applyChain db b_funcs sb c2 with
      | none => none
      | some (text_b, c3) =>
        match getTextOverlapScore stop text_a text_b with
        | none => none
        | some s => synsetRelGo stop db rest sa sb (acc + (s : Rat) * weight) c3

/-- `getSynsetRelatedness(synsets_a, synsets_b)`. -/
def getSynsetRelatedness (stop : List String) (db : WNDB)
    (relations : List (List RelFunc × List RelFunc × Rat))
    (synsets_a synsets_b : List Item) : Option Rat :=
  synsetRelGo stop db relations synsets_a synsets_b 0 0

/-- `space_pat.sub("_", w)` where `space_pat = re.compile(" ")`: replace each
space character (and only spaces) by an underscore. -/
def space_sub (w : String) : String :=
  String.mk (w.toList.map (fun ch => if ch = Char.ofNat 32 then Char.ofNat 95 else ch))

/-- Modelled from the spec for comparison with `space_sub` (refinement target of
claim C3): replace every whitespace character by an underscore. -/
def whitespace_sub (w : String) : String :=
  String.mk (w.toList.map (fun ch => if ch.isWhitespace then Char.ofNat 95 else ch))

/-- `getWordRelatedness(word_a, word_b)`; `senses` models `wn.synsets` (the
external provider lookup). -/
def getWordRelatedness (stop : List String) (db : WNDB)
    (relations : List (List RelFunc × List RelFunc × Rat))
    (senses : String → List Nat) (word_a word_b : String) : Option Rat :=
  getSynsetRelatedness stop db relations
    ((senses (space_sub word_a)).map Item.syn)
    ((senses (space_sub word_b)).map Item.syn)

/-! ## Lemmas about the longest-match search -/

theorem commonPrefixLen_le_left (xs : List Item) : ∀ ys, commonPrefixLen xs ys ≤ xs.length := by
  induction xs with
  | nil => intro ys; cases ys <;> simp [commonPrefixLen]
  | cons x xs ih =>
    intro ys
    cases ys with
    | nil => simp [commonPrefixLen]
    | cons y ys =>
      by_cases h : x = y
      · simpa [commonPrefixLen, h, Nat.succ_le_succ_iff] using ih ys
      · simp [commonPrefixLen, h]

theorem commonPrefixLen_comm (xs : List Item) : ∀ ys, commonPrefixLen xs ys = commonPrefixLen ys xs := by
  induction xs with
  | nil => intro ys; cases ys <;> simp [commonPrefixLen]
  | cons x xs ih =>
    intro ys
    cases ys with
    | nil => simp [commonPrefixLen]
    | cons y ys =>
      by_cases h : x = y
      · simp [commonPrefixLen, h, ih ys]
      · have h2 : ¬y = x := fun hy => h hy.symm
        simp [commonPrefixLen, h, h2]

theorem commonPrefixLen_le_right (xs ys : List Item) : commonPrefixLen xs ys ≤ ys.length := by
  rw [commonPrefixLen_comm]
  exact commonPrefixLen_le_left ys xs

theorem commonPrefixLen_take_eq (xs : List Item) :
    ∀ ys, xs.take (commonPrefixLen xs ys) = ys.take (commonPrefixLen xs ys) := by
  induction xs with
  | nil => intro ys; cases ys <;> simp [commonPrefixLen]
  | cons x xs ih =>
    intro ys
    cases ys with
    | nil => simp [commonPrefixLen]
    | cons y ys =>
      by_cases h : x = y
      · simp [commonPrefixLen, h, List.take_succ_cons, ih ys]
      · simp [commonPrefixLen, h]

theorem commonPrefixLen_self (xs : List Item) : commonPrefixLen xs xs = xs.length := by
  induction xs with
  | nil => simp [commonPrefixLen]
  | cons x xs ih => simp [commonPrefixLen, ih]

theorem matchLen_comm (a b : List Item) (i j : Nat) : matchLen a b i j = matchLen b a j i := by
  simp [matchLen, commonPrefixLen_comm]

theorem mem_pairsUpTo (lb i j : Nat) : ∀ la, (i, j) ∈ pairsUpTo la lb ↔ i < la ∧ j < lb := by
  intro la
  induction la with
  | zero => simp [pairsUpTo]
  | succ n ih =>
    simp only [pairsUpTo, List.mem_append, List.mem_map, List.mem_range, ih, Prod.mk.injEq]
    constructor
    · rintro (⟨h1, h2⟩ | ⟨j', hj, he1, he2⟩)
      · exact ⟨Nat.lt_succ_of_lt h1, h2⟩
      · subst he1; subst he2; exact ⟨Nat.lt_succ_self _, hj⟩
    · rintro ⟨h1, h2⟩
      rcases Nat.lt_succ_iff_lt_or_eq.mp h1 with h | rfl
      · exact Or.inl ⟨h, h2⟩
      · exact Or.inr ⟨j, h2, rfl, rfl⟩

theorem flmGo_k_mono (a b : List Item) : ∀ ps best, best.2.2 ≤ (flmGo a b ps best).2.2 := by
  intro ps
  induction ps with
  | nil => intro best; simp [flmGo]
  | cons p ps ih =>
    intro best
    simp only [flmGo]
    by_cases h : best.2.2 < matchLen a b p.1 p.2
    · simp only [if_pos h]
      exact le_trans (le_of_lt h) (ih (p.1, p.2, matchLen a b p.1 p.2))
    · simp only [if_neg h]
      exact ih best

theorem flmGo_ge (a b : List Item) :
    ∀ ps best p, p ∈ ps → matchLen a b p.1 p.2 ≤ (flmGo a b ps best).2.2 := by
  intro ps
  induction ps with
  | nil => intro best p hp; cases hp
  | cons q ps ih =>
    intro best p hp
    rcases List.mem_cons.mp hp with rfl | hmem
    · simp only [flmGo]
      by_cases h : best.2.2 < matchLen a b p.1 p.2
      · simp only [if_pos h]
        exact flmGo_k_mono a b ps (p.1, p.2, matchLen a b p.1 p.2)
      · simp only [if_neg h]
        exact le_trans (Nat.le_of_not_lt h) (flmGo_k_mono a b ps best)
    · simp only [flmGo]
      exact ih _ p hmem

/-- The result of the fold is either the untouched initial value or a genuine
candidate whose stored length is its real match length. -/
def FlmValid (a b : List Item) (r : Nat × Nat × Nat) : Prop :=
  r = (0, 0, 0) ∨ (r.1 < a.length ∧ r.2.1 < b.length ∧ matchLen a b r.1 r.2.1 = r.2.2)

theorem flmGo_valid (a b : List Item) :
    ∀ ps best, FlmValid a b best → (∀ p ∈ ps, p.1 < a.length ∧ p.2 < b.length) →
      FlmValid a b (flmGo a b ps best) := by
  intro ps
  induction ps with
  | nil => intro best hb _; simpa [flmGo] using hb
  | cons q ps ih =>
    intro best hb hps
    simp only [flmGo]
    by_cases h : best.2.2 < matchLen a b q.1 q.2
    · simp only [if_pos h]
      refine ih _ (Or.inr ?_) (fun p hp => hps p (List.mem_cons_of_mem _ hp))
      obtain ⟨h1, h2⟩ := hps q (List.mem_cons_self _ _)
      exact ⟨h1, h2, rfl⟩
    · simp only [if_neg h]
      exact ih _ hb (fun p hp => hps p (List.mem_cons_of_mem _ hp))

theorem flm_valid (a b : List Item) : FlmValid a b (find_longest_match a b) := by
  refine flmGo_valid a b _ _ (Or.inl rfl) ?_
  intro p hp
  have := (mem_pairsUpTo b.length p.1 p.2 a.length).mp (by simpa using hp)
  exact this

theorem flm_ge (a b : List Item) (i j : Nat) (hi : i < a.length) (hj : j < b.length) :
    matchLen a b i j ≤ (find_longest_match a b).2.2 := by
  exact flmGo_ge a b _ _ (i, j) ((mem_pairsUpTo b.length i j a.length).mpr ⟨hi, hj⟩)

/-- For a positive result the triple is a real match: in range, with equal slices. -/
theorem flm_pos_spec (a b : List Item) (hk : 0 < (find_longest_match a b).2.2) :
    (find_longest_match a b).1 + (find_longest_match a b).2.2 ≤ a.length ∧
    (find_longest_match a b).2.1 + (find_longest_match a b).2.2 ≤ b.length ∧
    (a.drop (find_longest_match a b).1).take (find_longest_match a b).2.2 =
      (b.drop (find_longest_match a b).2.1).take (find_longest_match a b).2.2 := by
  rcases flm_valid a b with h | ⟨hi, hj, hm⟩
  · rw [h] at hk; exact absurd hk (by simp)
  · refine ⟨?_, ?_, ?_⟩
    · have h1 : matchLen a b (find_longest_match a b).1 (find_longest_match a b).2.1 ≤
          (a.drop (find_longest_match a b).1).length := commonPrefixLen_le_left _ _
      rw [hm, List.length_drop] at h1
      omega
    · have h1 : matchLen a b (find_longest_match a b).1 (find_longest_match a b).2.1 ≤
          (b.drop (find_longest_match a b).2.1).length := commonPrefixLen_le_right _ _
      rw [hm, List.length_drop] at h1
      omega
    · rw [← hm]
      exact commonPrefixLen_take_eq _ _

theorem flm_len_le_comm (a b : List Item) :
    (find_longest_match a b).2.2 ≤ (find_longest_match b a).2.2 := by
  rcases flm_valid a b with h | ⟨hi, hj, hm⟩
  · rw [h]; exact Nat.zero_le _
  · rw [← hm, matchLen_comm]
    exact flm_ge b a _ _ hj hi

/-! ## Termination of the matching loop -/

/-- Every separator index occurring in the list is below `c`. -/
def SepBound (c : Nat) (l : List Item) : Prop :=
  ∀ n, Item.sep n ∈ l → n < c

theorem sepBound_maxSepIdx (l : List Item) : SepBound (maxSepIdx l) l := by
  induction l with
  | nil => intro n hn; cases hn
  | cons x xs ih =>
    intro n hn
    rcases List.mem_cons.mp hn with rfl | hmem
    · simp only [maxSepIdx, List.foldr_cons]
      exact lt_of_lt_of_le (Nat.lt_succ_self n) (le_max_left _ _)
    · have h1 : n < maxSepIdx xs := ih n hmem
      have h2 : maxSepIdx xs ≤ maxSepIdx (x :: xs) := by
        simp only [maxSepIdx, List.foldr_cons]
        cases x <;> simp [le_max_right]
      exact lt_of_lt_of_le h1 h2

theorem sepBound_mono {c c2 : Nat} {l : List Item} (h : SepBound c l) (hc : c ≤ c2) :
    SepBound c2 l := fun n hn => lt_of_lt_of_le (h n hn) hc

theorem sepBound_not_mem {c : Nat} {l : List Item} (h : SepBound c l) (n : Nat) (hn : c ≤ n) :
    Item.sep n ∉ l := fun hmem => absurd (h n hmem) (Nat.not_lt.mpr hn)

theorem interCount_eq_card_inter (a : List Item) :
    ∀ b, interCount a b = Multiset.card ((a : Multiset Item) ∩ (b : Multiset Item)) := by
  induction a with
  | nil => intro b; simp [interCount]
  | cons x xs ih =>
    intro b
    by_cases h : x ∈ b
    · have hcons : ((x :: xs : List Item) : Multiset Item) = x ::ₘ (xs : Multiset Item) := rfl
      rw [interCount, if_pos h, hcons, Multiset.cons_inter_of_pos _ (by simpa using h)]
      have herase : ((b.erase x : List Item) : Multiset Item) = ((b : Multiset Item).erase x) :=
        (Multiset.coe_erase b x).symm
      simp only [Multiset.card_cons, ih (b.erase x), herase]
      omega
    · have hcons : ((x :: xs : List Item) : Multiset Item) = x ::ₘ (xs : Multiset Item) := rfl
      rw [interCount, if_neg h, hcons, Multiset.cons_inter_of_neg _ (by simpa using h)]
      exact ih b

/-- Decomposition of a list around a slice. -/
theorem slice_decomp (l : List Item) (i k : Nat) :
    l = l.take i ++ (l.drop i).take k ++ l.drop (i + k) := by
  have h3 : (l.drop i).drop k = l.drop (i + k) := by
    rw [List.drop_drop, Nat.add_comm]
  calc l = l.take i ++ l.drop i := (List.take_append_drop i l).symm
    _ = l.take i ++ ((l.drop i).take k ++ (l.drop i).drop k) := by
        rw [List.take_append_drop, List.take_append_drop]
        exact (List.take_append_drop i l).symm
    _ = l.take i ++ (l.drop i).take k ++ l.drop (i + k) := by
        rw [h3, List.append_assoc]

/-- The key step: replacing a genuinely matched slice of positive length in both
lists by two distinct fresh separators strictly decreases the count of common
occurrences. -/
theorem interCount_replace_lt (a b : List Item) (i j k c : Nat)
    (hk : 0 < k) (hia : i + k ≤ a.length) (hjb : j + k ≤ b.length)
    (heq : (a.drop i).take k = (b.drop j).take k)
    (ha : SepBound c a) (hb : SepBound c b) :
    interCount (replaceSlice a i k (Item.sep c)) (replaceSlice b j k (Item.sep (c + 1))) <
      interCount a b := by
  rw [interCount_eq_card_inter, interCount_eq_card_inter]
  set t : List Item := (a.drop i).take k with ht
  -- count bookkeeping
  have hlen_t : t.length = k := by
    rw [ht, List.length_take, List.length_drop]
    omega
  obtain ⟨x0, hx0⟩ : ∃ x0, x0 ∈ t :=
    List.exists_mem_of_length_pos (by omega)
  have hx0a : x0 ∈ a := by
    have h1 : x0 ∈ a.drop i := List.mem_of_mem_take hx0
    exact List.mem_of_mem_drop h1
  have hx0b : x0 ∈ b := by
    have h1 : x0 ∈ (b.drop j).take k := heq ▸ hx0
    exact List.mem_of_mem_drop (List.mem_of_mem_take h1)
  -- the fresh separators are not among the originals
  have hsc_a : Item.sep c ∉ a := sepBound_not_mem ha c (le_refl c)
  have hsc_b : Item.sep c ∉ b := sepBound_not_mem hb c (le_refl c)
  have hsc1_a : Item.sep (c + 1) ∉ a := sepBound_not_mem ha (c + 1) (Nat.le_succ c)
  have hsc1_b : Item.sep (c + 1) ∉ b := sepBound_not_mem hb (c + 1) (Nat.le_succ c)
  have hx0_ne_c : x0 ≠ Item.sep c := fun h0 => hsc_a (h0 ▸ hx0a)
  have hx0_ne_c1 : x0 ≠ Item.sep (c + 1) := fun h0 => hsc1_a (h0 ▸ hx0a)
  -- count decompositions
  have hadec : ∀ x : Item, a.count x = (a.take i).count x + t.count x + (a.drop (i + k)).count x := by
    intro x
    nth_rewrite 1 [slice_decomp a i k]
    simp only [List.count_append, ht]
  have hbdec : ∀ x : Item, b.count x = (b.take j).count x + t.count x + (b.drop (j + k)).count x := by
    intro x
    nth_rewrite 1 [slice_decomp b j k]
    simp only [List.count_append, heq]
  have hadec2 : ∀ x : Item, (replaceSlice a i k (Item.sep c)).count x =
      (a.take i).count x + [Item.sep c].count x + (a.drop (i + k)).count x := by
    intro x
    simp only [replaceSlice, List.count_append]
  have hbdec2 : ∀ x : Item, (replaceSlice b j k (Item.sep (c + 1))).count x =
      (b.take j).count x + [Item.sep (c + 1)].count x + (b.drop (j + k)).count x := by
    intro x
    simp only [replaceSlice, List.count_append]
  -- multiset counts
  have hcnt : ∀ (l : List Item) (x : Item), Multiset.count x (l : Multiset Item) = l.count x := by
    intro l x
    simp [Multiset.coe_count]
  -- pointwise inequality of the two intersections
  have hle : ∀ x : Item,
      Multiset.count x ((replaceSlice a i k (Item.sep c) : Multiset Item) ∩
        (replaceSlice b j k (Item.sep (c + 1)) : Multiset Item)) ≤
      Multiset.count x ((a : Multiset Item) ∩ (b : Multiset Item)) := by
    intro x
    rw [Multiset.count_inter, Multiset.count_inter, hcnt, hcnt, hcnt, hcnt,
      hadec2 x, hbdec2 x, hadec x, hbdec x]
    by_cases hxc : x = Item.sep c
    · have h0 : (b.take j).count x = 0 := by
        rw [List.count_eq_zero]
        intro hmem
        exact hsc_b (hxc ▸ List.mem_of_mem_take hmem)
      have h1 : (b.drop (j + k)).count x = 0 := by
        rw [List.count_eq_zero]
        intro hmem
        exact hsc_b (hxc ▸ List.mem_of_mem_drop hmem)
      have h2 : ([Item.sep (c + 1)].count x) = 0 := by
        rw [List.count_eq_zero]
        simp [hxc]
      omega
    · by_cases hxc1 : x = Item.sep (c + 1)
      · have h0 : (a.take i).count x = 0 := by
          rw [List.count_eq_zero]
          intro hmem
          exact hsc1_a (hxc1 ▸ List.mem_of_mem_take hmem)
        have h1 : (a.drop (i + k)).count x = 0 := by
          rw [List.count_eq_zero]
          intro hmem
          exact hsc1_a (hxc1 ▸ List.mem_of_mem_drop hmem)
        have h2 : ([Item.sep c].count x) = 0 := by
          rw [List.count_eq_zero]
          simp [hxc1]
        omega
      · have h2 : ([Item.sep c].count x) = 0 := by
          rw [List.count_eq_zero]
          simp [hxc]
        have h3 : ([Item.sep (c + 1)].count x) = 0 := by
          rw [List.count_eq_zero]
          simp [hxc1]
        omega
  -- strict inequality at the sample element
  have hlt : Multiset.count x0 ((replaceSlice a i k (Item.sep c) : Multiset Item) ∩
        (replaceSlice b j k (Item.sep (c + 1)) : Multiset Item)) <
      Multiset.count x0 ((a : Multiset Item) ∩ (b : Multiset Item)) := by
    rw [Multiset.count_inter, Multiset.count_inter, hcnt, hcnt, hcnt, hcnt,
      hadec2 x0, hbdec2 x0, hadec x0, hbdec x0]
    have h2 : ([Item.sep c].count x0) = 0 := by
      rw [List.count_eq_zero]
      simp [hx0_ne_c]
    have h3 : ([Item.sep (c + 1)].count x0) = 0 := by
      rw [List.count_eq_zero]
      simp [hx0_ne_c1]
    have h4 : 0 < t.count x0 := List.count_pos_iff.mpr hx0
    omega
  -- conclude on cards
  have hmle : ((replaceSlice a i k (Item.sep c) : Multiset Item) ∩
      (replaceSlice b j k (Item.sep (c + 1)) : Multiset Item)) ≤
      ((a : Multiset Item) ∩ (b : Multiset Item)) := Multiset.le_iff_count.mpr hle
  have hne : ((replaceSlice a i k (Item.sep c) : Multiset Item) ∩
      (replaceSlice b j k (Item.sep (c + 1)) : Multiset Item)) ≠
      ((a : Multiset Item) ∩ (b : Multiset Item)) := by
    intro h0
    rw [h0] at hlt
    exact lt_irrefl _ hlt
  exact Multiset.card_lt_card (lt_of_le_of_ne hmle hne)

theorem sepBound_replaceSlice {c : Nat} {l : List Item} (h : SepBound c l)
    (i k m : Nat) (hm : m < c + 2) : SepBound (c + 2) (replaceSlice l i k (Item.sep m)) := by
  intro n hn
  simp only [replaceSlice, List.mem_append] at hn
  rcases hn with (hn | hn) | hn
  · exact lt_of_lt_of_le (h n (List.mem_of_mem_take hn)) (by omega)
  · simp at hn
    omega
  · exact lt_of_lt_of_le (h n (List.mem_of_mem_drop hn)) (by omega)

/-- The matching loop terminates: with any fuel exceeding the common-occurrence
count of the two working copies (and a counter dominating all separators in
them), the loop reaches the no-match exit instead of running out of fuel. -/
theorem scoreLoop_isSome (stop : List String) :
    ∀ fuel a b c, SepBound c a → SepBound c b → interCount a b < fuel →
      (scoreLoop stop fuel a b c).isSome := by
  intro fuel
  induction fuel with
  | zero => intro a b c _ _ hcnt; omega
  | succ n ih =>
    intro a b c ha hb hcnt
    by_cases hk : 0 < (find_longest_match a b).2.2
    · obtain ⟨h1, h2, h3⟩ := flm_pos_spec a b hk
      have hdec := interCount_replace_lt a b (find_longest_match a b).1
        (find_longest_match a b).2.1 (find_longest_match a b).2.2 c hk h1 h2 h3 ha hb
      have ha2 := sepBound_replaceSlice ha (find_longest_match a b).1
        (find_longest_match a b).2.2 c (by omega)
      have hb2 := sepBound_replaceSlice hb (find_longest_match a b).2.1
        (find_longest_match a b).2.2 (c + 1) (by omega)
      have hrec := ih _ _ _ ha2 hb2 (by omega)
      simp only [scoreLoop, if_pos hk]
      cases hsome : scoreLoop stop n
          (replaceSlice a (find_longest_match a b).1 (find_longest_match a b).2.2 (Item.sep c))
          (replaceSlice b (find_longest_match a b).2.1 (find_longest_match a b).2.2
            (Item.sep (c + 1))) (c + 2) with
      | some s => simp
      | none => rw [hsome] at hrec; simp at hrec
    · simp [scoreLoop, if_neg hk]

/-- Once sufficient, extra fuel does not change the loop's result: the fuelled
model agrees with the unbounded `while` loop of the source. -/
theorem scoreLoop_fuel_stable (stop : List String) :
    ∀ f g a b c, f ≤ g → (scoreLoop stop f a b c).isSome →
      scoreLoop stop g a b c = scoreLoop stop f a b c := by
  intro f
  induction f with
  | zero =>
    intro g a b c _ hs
    simp [scoreLoop] at hs
  | succ n ih =>
    intro g a b c hfg hs
    obtain ⟨m, rfl⟩ : ∃ m, g = m + 1 := ⟨g - 1, by omega⟩
    by_cases hk : 0 < (find_longest_match a b).2.2
    · simp only [scoreLoop, if_pos hk] at hs ⊢
      cases hrec : scoreLoop stop n
          (replaceSlice a (find_longest_match a b).1 (find_longest_match a b).2.2 (Item.sep c))
          (replaceSlice b (find_longest_match a b).2.1 (find_longest_match a b).2.2
            (Item.sep (c + 1))) (c + 2) with
      | none => rw [hrec] at hs; simp at hs
      | some s =>
        have hm : scoreLoop stop m
            (replaceSlice a (find_longest_match a b).1 (find_longest_match a b).2.2 (Item.sep c))
            (replaceSlice b (find_longest_match a b).2.1 (find_longest_match a b).2.2
              (Item.sep (c + 1))) (c + 2) = some s := by
          rw [ih m _ _ _ (by omega) (by rw [hrec]; simp), hrec]
        rw [hm]
    · simp only [scoreLoop, if_neg hk]

theorem getTextOverlapScore_isSome (stop : List String) (a b : List Item) :
    (getTextOverlapScore stop a b).isSome := by
  refine scoreLoop_isSome stop _ a b _ ?_ ?_ (Nat.lt_succ_self _)
  · exact sepBound_mono (sepBound_maxSepIdx a) (le_max_left _ _)
  · exact sepBound_mono (sepBound_maxSepIdx b) (le_max_right _ _)

/-! ## Lemmas about chain evaluation (for the unknown-word claim) -/

/-- Every element of the group is a synset. -/
def AllSyn (v : List Item) : Prop := ∀ it ∈ v, ∃ i, it = Item.syn i

/-- The three compiled functions that return word tokens; all others are
sense-to-sense. -/
def isTokenFunc : RelFunc → Bool
  | RelFunc.concat_definitions => true
  | RelFunc.concat_examples => true
  | RelFunc.concat_lemmas => true
  | _ => false

/-- A compiled chain is well formed when all steps but the last are
sense-to-sense and the last returns tokens (the shape every sensibly authored
relation file compiles to, given the implicit gloss append). -/
def WFchain (fs : List RelFunc) : Prop :=
  ∃ gs t, fs = gs ++ [t] ∧ (∀ f ∈ gs, isTokenFunc f = false) ∧ isTokenFunc t = true

theorem synIds?_allSyn {v : List Item} (hv : AllSyn v) : ∃ ss, synIds? v = some ss := by
  induction v with
  | nil => exact ⟨[], rfl⟩
  | cons x xs ih =>
    obtain ⟨i, rfl⟩ := hv x (List.mem_cons_self _ _)
    obtain ⟨ss, hss⟩ := ih (fun it h => hv it (List.mem_cons_of_mem _ h))
    exact ⟨i :: ss, by simp [synIds?, hss]⟩

theorem allSyn_mapSyn (l : List Nat) : AllSyn (l.map Item.syn) := by
  intro it h
  obtain ⟨i, _, rfl⟩ := List.mem_map.mp h
  exact ⟨i, rfl⟩

theorem applyFunc_sense_some (db : WNDB) (f : RelFunc) (v : List Item) (c : Nat)
    (hf : isTokenFunc f = false) (hv : AllSyn v) :
    ∃ w, applyFunc db f v c = some (w, c) ∧ AllSyn w := by
  obtain ⟨ss, hss⟩ := synIds?_allSyn hv
  cases f with
  | get_also_sees => exact ⟨(get_also_sees db ss).map Item.syn, by simp [applyFunc, hss], allSyn_mapSyn _⟩
  | get_attributes => exact ⟨(get_attributes db ss).map Item.syn, by simp [applyFunc, hss], allSyn_mapSyn _⟩
  | get_holonyms => exact ⟨(get_holonyms db ss).map Item.syn, by simp [applyFunc, hss], allSyn_mapSyn _⟩
  | get_hypernyms => exact ⟨(get_hypernyms db ss).map Item.syn, by simp [applyFunc, hss], allSyn_mapSyn _⟩
  | get_hyponyms => exact ⟨(get_hyponyms db ss).map Item.syn, by simp [applyFunc, hss], allSyn_mapSyn _⟩
  | get_meronyms => exact ⟨(get_meronyms db ss).map Item.syn, by simp [applyFunc, hss], allSyn_mapSyn _⟩
  | get_pertainyms => exact ⟨(get_pertainyms db ss).map Item.syn, by simp [applyFunc, hss], allSyn_mapSyn _⟩
  | get_similar_tos => exact ⟨(get_similar_tos db ss).map Item.syn, by simp [applyFunc, hss], allSyn_mapSyn _⟩
  | concat_definitions => simp [isTokenFunc] at hf
  | concat_examples => simp [isTokenFunc] at hf
  | concat_lemmas => simp [isTokenFunc] at hf

theorem applyFunc_token_some (db : WNDB) (f : RelFunc) (v : List Item) (c : Nat)
    (hf : isTokenFunc f = true) (hv : AllSyn v) :
    ∃ w c2, applyFunc db f v c = some (w, c2) := by
  obtain ⟨ss, hss⟩ := synIds?_allSyn hv
  cases f with
  | concat_definitions =>
    exact ⟨(concat_definitions db ss c).1, (concat_definitions db ss c).2, by simp [applyFunc, hss]⟩
  | concat_examples =>
    exact ⟨(concat_examples db ss c).1, (concat_examples db ss c).2, by simp [applyFunc, hss]⟩
  | concat_lemmas =>
    exact ⟨(concat_lemmas db ss c).1, (concat_lemmas db ss c).2, by simp [applyFunc, hss]⟩
  | get_also_sees => simp [isTokenFunc] at hf
  | get_attributes => simp [isTokenFunc] at hf
  | get_holonyms => simp [isTokenFunc] at hf
  | get_hypernyms => simp [isTokenFunc] at hf
  | get_hyponyms => simp [isTokenFunc] at hf
  | get_meronyms => simp [isTokenFunc] at hf
  | get_pertainyms => simp [isTokenFunc] at hf
  | get_similar_tos => simp [isTokenFunc] at hf

theorem applyChain_append (db : WNDB) (l1 l2 : List RelFunc) :
    ∀ v c, applyChain db (l1 ++ l2) v c =
      match applyChain db l1 v c with
      | some (v2, c2) => applyChain db l2 v2 c2
      | none => none := by
  induction l1 with
  | nil => intro v c; simp [applyChain]
  | cons f fs ih =>
    intro v c
    simp only [List.cons_append, applyChain]
    cases applyFunc db f v c with
    | none => rfl
    | some p => exact ih p.1 p.2

theorem applyChain_sense_some (db : WNDB) (gs : List RelFunc)
    (hgs : ∀ f ∈ gs, isTokenFunc f = false) :
    ∀ v c, AllSyn v → ∃ w, applyChain db gs v c = some (w, c) ∧ AllSyn w := by
  induction gs with
  | nil => intro v c hv; exact ⟨v, rfl, hv⟩
  | cons f fs ih =>
    intro v c hv
    obtain ⟨w, hw, hws⟩ := applyFunc_sense_some db f v c (hgs f (List.mem_cons_self _ _)) hv
    obtain ⟨w2, hw2, hw2s⟩ := ih (fun g hg => hgs g (List.mem_cons_of_mem _ hg)) w c hws
    exact ⟨w2, by simp [applyChain, hw, hw2], hw2s⟩

theorem applyChain_wfchain_some (db : WNDB) (fs : List RelFunc) (hwf : WFchain fs)
    (v : List Item) (c : Nat) (hv : AllSyn v) :
    ∃ w c2, applyChain db fs v c = some (w, c2) := by
  obtain ⟨gs, t, rfl, hgs, ht⟩ := hwf
  obtain ⟨w, hw, hws⟩ := applyChain_sense_some db gs hgs v c hv
  obtain ⟨w2, c2, hw2⟩ := applyFunc_token_some db t w c ht hws
  refine ⟨w2, c2, ?_⟩
  rw [applyChain_append, hw]
  simp [applyChain, hw2]

theorem applyFunc_nil_group (db : WNDB) (f : RelFunc) (c : Nat) :
    applyFunc db f [] c = some ([], c) := by
  cases f <;>
    simp [applyFunc, synIds?, get_also_sees, get_attributes, get_holonyms, get_hypernyms,
      get_hyponyms, get_meronyms, get_pertainyms, get_similar_tos,
      concat_definitions, concat_examples, concatExsOuter, concat_lemmas, concatLemsOuter]

theorem applyChain_nil_group (db : WNDB) (fs : List RelFunc) :
    ∀ c, applyChain db fs [] c = some ([], c) := by
  induction fs with
  | nil => intro c; rfl
  | cons f fs ih =>
    intro c
    simp [applyChain, applyFunc_nil_group, ih c]

theorem overlap_nil_left (stop : List String) (b : List Item) :
    getTextOverlapScore stop [] b = some 0 := rfl

theorem synsetRelGo_nil_left (stop : List String) (db : WNDB) :
    ∀ (rels : List (List RelFunc × List RelFunc × Rat)) (sb : List Item) (acc : Rat) (c : Nat),
      (∀ r ∈ rels, WFchain r.2.1) → AllSyn sb →
      synsetRelGo stop db rels [] sb acc c = some acc := by
  intro rels
  induction rels with
  | nil => intro sb acc c _ _; rfl
  | cons r rest ih =>
    intro sb acc c hwf hsb
    obtain ⟨af, bf, w⟩ := r
    obtain ⟨tb, c3, hb⟩ :=
      applyChain_wfchain_some db bf (hwf _ (List.mem_cons_self _ _)) sb c hsb
    simp only [synsetRelGo, applyChain_nil_group, hb, overlap_nil_left]
    have hacc : acc + ((0 : Nat) : Rat) * w = acc := by
      simp
    rw [hacc]
    exact ih sb acc c3 (fun r2 hr => hwf r2 (List.mem_cons_of_mem _ hr)) hsb

/-! ## Lemmas for scoring an identical pair of sequences -/

theorem interCount_self (l : List Item) : interCount l l = l.length := by
  induction l with
  | nil => rfl
  | cons x xs ih =>
    rw [interCount, if_pos (List.mem_cons_self x xs), List.erase_cons_head, ih]
    simp [Nat.add_comm]

theorem flm_self (l : List Item) (hne : l ≠ []) :
    find_longest_match l l = (0, 0, l.length) := by
  have hlen : 0 < l.length := List.length_pos.mpr hne
  have hge : l.length ≤ (find_longest_match l l).2.2 := by
    have h0 := flm_ge l l 0 0 hlen hlen
    simpa [matchLen, commonPrefixLen_self] using h0
  rcases flm_valid l l with h0 | ⟨hi, hj, hm⟩
  · have hz : ((0, 0, 0) : Nat × Nat × Nat).2.2 = 0 := rfl
    rw [h0, hz] at hge
    omega
  · have hle1 : (find_longest_match l l).2.2 ≤ l.length - (find_longest_match l l).1 := by
      rw [← hm]
      simpa [matchLen, List.length_drop] using
        commonPrefixLen_le_left (l.drop (find_longest_match l l).1)
          (l.drop (find_longest_match l l).2.1)
    have hle2 : (find_longest_match l l).2.2 ≤ l.length - (find_longest_match l l).2.1 := by
      rw [← hm]
      simpa [matchLen, List.length_drop] using
        commonPrefixLen_le_right (l.drop (find_longest_match l l).1)
          (l.drop (find_longest_match l l).2.1)
    have h1 : (find_longest_match l l).1 = 0 := by omega
    have h2 : (find_longest_match l l).2.1 = 0 := by omega
    have h3 : (find_longest_match l l).2.2 = l.length := by omega
    have heq : find_longest_match l l =
        ((find_longest_match l l).1, (find_longest_match l l).2.1,
          (find_longest_match l l).2.2) := rfl
    rw [h1, h2, h3] at heq
    exact heq

theorem leading_zero_of_head (stop : List String) (l : List Item) (d : Item)
    (hne : l ≠ []) (h : isStopword stop (l.headD d) = false) :
    _getLeadingStopwordCount stop l = 0 := by
  cases l with
  | nil => exact absurd rfl hne
  | cons x xs =>
    simp only [List.headD_cons] at h
    simp [_getLeadingStopwordCount, List.takeWhile_cons, h]

theorem lws_full (stop : List String) (l : List Item) (hne : l ≠ [])
    (h1 : isStopword stop (l.headD (Item.word "")) = false)
    (h2 : isStopword stop (l.getLastD (Item.word "")) = false) :
    _lengthWithoutStopwords stop l = l.length := by
  have hlen : 0 < l.length := List.length_pos.mpr hne
  have hl : _getLeadingStopwordCount stop l = 0 := leading_zero_of_head stop l _ hne h1
  have hrevne : l.reverse ≠ [] := by
    simpa using hne
  have hrevhead : l.reverse.headD (Item.word "") = l.getLastD (Item.word "") := by
    rw [List.headD_eq_head?, List.head?_reverse, List.getLastD_eq_getLast?]
  have hr : _getLeadingStopwordCount stop l.reverse = 0 :=
    leading_zero_of_head stop l.reverse _ hrevne (by rw [hrevhead]; exact h2)
  rw [_lengthWithoutStopwords, hl, hr]
  simp [hlen]

theorem scoreLoop_two_seps (stop : List String) (n c1 c2 d : Nat) (h : c1 ≠ c2) :
    scoreLoop stop (n + 1) [Item.sep c1] [Item.sep c2] d = some 0 := by
  have hflm : find_longest_match [Item.sep c1] [Item.sep c2] = (0, 0, 0) := by
    simp [find_longest_match, pairsUpTo, flmGo, matchLen, commonPrefixLen, h]
  simp [scoreLoop, hflm]

/-- Scoring a non-empty list against itself with no boundary stopwords: one full
match, squared length, then two fresh separators that cannot match. -/
theorem score_self (stop : List String) (l : List Item) (hne : l ≠ [])
    (h1 : isStopword stop (l.headD (Item.word "")) = false)
    (h2 : isStopword stop (l.getLastD (Item.word "")) = false) :
    getTextOverlapScore stop l l = some (l.length ^ 2) := by
  have hlen : 0 < l.length := List.length_pos.mpr hne
  obtain ⟨m, hm⟩ : ∃ m, l.length = m + 1 := ⟨l.length - 1, by omega⟩
  have hfuel : interCount l l + 1 = l.length + 1 := by rw [interCount_self]
  rw [getTextOverlapScore, hfuel]
  rw [scoreLoop, flm_self l hne]
  simp only [if_pos hlen]
  rw [show replaceSlice l 0 l.length (Item.sep (max (maxSepIdx l) (maxSepIdx l))) =
      [Item.sep (max (maxSepIdx l) (maxSepIdx l))] from by
    simp [replaceSlice, List.drop_length]]
  rw [show replaceSlice l 0 l.length (Item.sep (max (maxSepIdx l) (maxSepIdx l) + 1)) =
      [Item.sep (max (maxSepIdx l) (maxSepIdx l) + 1)] from by
    simp [replaceSlice, List.drop_length]]
  rw [show (l.drop 0).take l.length = l from by simp [List.take_length]]
  rw [lws_full stop l hne h1 h2]
  rw [hm, scoreLoop_two_seps stop m _ _ _ (by omega)]
  simp

/-! ## Lemmas about error messages and line parsing -/

theorem begWith_nil (h : List Char) : begWith h [] = true := by
  cases h <;> rfl

theorem begWith_append (m s : List Char) : begWith (m ++ s) m = true := by
  induction m with
  | nil => exact begWith_nil _
  | cons c m ih =>
    rw [List.cons_append, begWith, ih]
    simp

theorem hasSub_append_mid (p m s : List Char) : hasSub (p ++ m ++ s) m = true := by
  induction p with
  | nil =>
    rw [List.nil_append]
    cases hms : m ++ s with
    | nil =>
      have hm : m = [] := (List.append_eq_nil.mp hms).1
      subst hm
      rw [List.nil_append] at hms
      subst hms
      rfl
    | cons x xs =>
      rw [hasSub, ← hms, begWith_append]
      simp
  | cons c p ih =>
    rw [List.cons_append, List.cons_append, hasSub, ih]
    simp

/-- Any string of the shape `pre ++ mid ++ suf` contains `mid`. -/
theorem strContains_parts (p m s : String) : strContains (p ++ m ++ s) m = true := by
  have hdata : (p ++ m ++ s).toList = p.toList ++ m.toList ++ s.toList := by
    simp [String.toList, String.data_append]
  rw [strContains, hdata]
  exact hasSub_append_mid _ _ _

/-- Every line-level error message contains the (lowercased) offending line. -/
theorem lineErrMsg_contains (floc line kind : String) :
    strContains (lineErrMsg floc line kind) line = true := by
  rw [lineErrMsg]
  have h : "Relation file does is not in WordNet::Similarity format; line " ++ line ++
      kind ++ ".\n" ++ floc ++ "\n\nPlease see " ++ relFileDocURL =
      "Relation file does is not in WordNet::Similarity format; line " ++ line ++
      (kind ++ ".\n" ++ floc ++ "\n\nPlease see " ++ relFileDocURL) := by
    simp [String.append_assoc]
  rw [h]
  exact strContains_parts _ _ _

theorem splitOnCharGo_chars (c : Char) :
    ∀ (l acc piece : List Char), piece ∈ splitOnCharGo c acc l →
      ∀ ch ∈ piece, ch ∈ acc ∨ ch ∈ l := by
  intro l
  induction l with
  | nil =>
    intro acc piece hp ch hch
    simp only [splitOnCharGo, List.mem_singleton] at hp
    subst hp
    exact Or.inl (List.mem_reverse.mp hch)
  | cons x xs ih =>
    intro acc piece hp ch hch
    simp only [splitOnCharGo] at hp
    by_cases hx : x = c
    · rw [if_pos hx] at hp
      rcases List.mem_cons.mp hp with rfl | hmem
      · exact Or.inl (List.mem_reverse.mp hch)
      · rcases ih [] piece hmem ch hch with h0 | h0
        · cases h0
        · exact Or.inr (List.mem_cons_of_mem _ h0)
    · rw [if_neg hx] at hp
      rcases ih (x :: acc) piece hp ch hch with h0 | h0
      · rcases List.mem_cons.mp h0 with rfl | h1
        · exact Or.inr (List.mem_cons_self _ _)
        · exact Or.inl h1
      · exact Or.inr (List.mem_cons_of_mem _ h0)

theorem splitOnChar_chars (c : Char) (l piece : List Char) (hp : piece ∈ splitOnChar c l) :
    ∀ ch ∈ piece, ch ∈ l := by
  intro ch hch
  rcases splitOnCharGo_chars c l [] piece hp ch hch with h0 | h0
  · cases h0
  · exact h0

theorem pysplitGo_nows :
    ∀ (l cur : List Char), (∀ ch ∈ l, ch.isWhitespace = false) →
      pysplitGo cur l = if (cur.reverse ++ l).isEmpty then [] else [cur.reverse ++ l] := by
  intro l
  induction l with
  | nil =>
    intro cur _
    rcases Classical.em (cur = []) with h | h
    · simp [pysplitGo, h]
    · have h2 : cur.reverse ++ [] ≠ [] := by simpa using h
      simp only [pysplitGo, List.isEmpty_iff, List.append_nil]
      simp [h, h2, List.isEmpty_iff]
  | cons x xs ih =>
    intro cur hl
    have hx : x.isWhitespace = false := hl x (List.mem_cons_self _ _)
    rw [pysplitGo, if_neg (by simp [hx])]
    rw [ih (x :: cur) (fun ch h => hl ch (List.mem_cons_of_mem _ h))]
    have hshape : (x :: cur).reverse ++ xs = cur.reverse ++ x :: xs := by
      simp
    rw [hshape]

theorem pysplitL_nows (l : List Char) (hl : ∀ ch ∈ l, ch.isWhitespace = false) :
    pysplitL l = if l.isEmpty then [] else [l] := by
  rw [pysplitL, pysplitGo_nows l [] hl]
  simp

/-! ## Lemmas about compileLine and read_relation_file errors -/

theorem parseWeightPart_nows (bL0 : List Char) (hb : ∀ ch ∈ bL0, ch.isWhitespace = false) :
    parseWeightPart bL0 = some (bL0, 1) := by
  rw [parseWeightPart, pysplitL_nows bL0 hb]
  by_cases hbe : bL0.isEmpty
  · rw [if_pos hbe]
  · rw [if_neg hbe]

/-- Every error raised by `compileLine` carries the lowercased line content. -/
theorem compileLine_error_contains (floc line e : String)
    (h : compileLine floc line = Except.error e) :
    strContains e (lowerStr line) = true := by
  unfold compileLine at h
  repeat' split at h
  all_goals
    first
    | (injection h with h2
       rw [← h2]
       exact lineErrMsg_contains floc (lowerStr line) _)
    | exact Except.noConfusion h

/-- A line whose lowered form contains no whitespace compiles (when it compiles)
with the default weight 1. -/
theorem compileLine_default_weight (floc line : String) (afun bfun : List RelFunc) (w : Rat)
    (h : compileLine floc line = Except.ok (afun, bfun, w))
    (hnw : ∀ ch ∈ (lowerStr line).toList, ch.isWhitespace = false) :
    w = 1 := by
  unfold compileLine at h
  split at h
  case _ aL bL0 heq =>
    have hb : ∀ ch ∈ bL0, ch.isWhitespace = false := by
      intro ch hch
      refine hnw ch
        (splitOnChar_chars (Char.ofNat 45) (lowerStr line).toList bL0 ?_ ch hch)
      rw [heq]
      simp
    rw [parseWeightPart_nows bL0 hb] at h
    simp only [] at h
    repeat' split at h
    all_goals
      first
      | (simp only [Except.ok.injEq, Prod.mk.injEq] at h
         exact h.2.2.symm)
      | exact Except.noConfusion h
  case _ =>
    exact Except.noConfusion h

/-- A successful read means every body line compiled: parse errors are never
silently ignored. -/
theorem read_ok_all_lines_ok (floc : String) :
    ∀ (rest : List String) (out : List (List RelFunc × List RelFunc × Rat)),
      read_relation_file floc ("RelationFile" :: rest) = Except.ok out →
      ∀ l ∈ rest, ∃ trip, compileLine floc l = Except.ok trip := by
  intro rest
  induction rest with
  | nil => intro out _ l hl; cases hl
  | cons x xs ih =>
    intro out h l hl
    rw [read_relation_file, if_pos (by decide)] at h
    rw [compileLines] at h
    cases hx : compileLine floc x with
    | error m =>
      rw [hx] at h
      exact Except.noConfusion h
    | ok trip =>
      rw [hx] at h
      rcases List.mem_cons.mp hl with rfl | hmem
      · exact ⟨trip, hx⟩
      · cases hxs : compileLines floc xs with
        | error m2 =>
          rw [hxs] at h
          exact Except.noConfusion h
        | ok out2 =>
          refine ih out2 ?_ l hmem
          rw [read_relation_file, if_pos (by decide), hxs]
/-! ## Concrete fixtures used by the claim theorems -/

/-- A relation accessor with no targets for any synset. -/
def noRel : Nat -> List Nat := fun _ => []

/-- An example accessor with no example sentences. -/
def noExs : Nat -> List String := fun _ => []

/-- A one-definition database: every synset's gloss is the word `vehicle`,
every relation list is empty. -/
def db0 : WNDB :=
  ⟨fun _ => "vehicle", noExs, noRel, fun _ => "", fun _ => 0,
   noRel, noRel, noRel, noRel, noRel, noRel, noRel, noRel, noRel,
   noRel, noRel, noRel, noRel, noRel, noRel⟩

/-- A database where synset 0 has hyponyms `[1]`, instance hyponyms `[2]`,
member holonyms `[3]`, attributes `[7]` and similar-tos `[5]`. -/
def db1 : WNDB :=
  ⟨fun _ => "", noExs, noRel, fun _ => "", fun _ => 0,
   noRel, noRel, noRel, noRel, noRel,
   (fun s => if s = 0 then [1] else []), (fun s => if s = 0 then [2] else []),
   (fun s => if s = 0 then [3] else []), noRel, noRel, noRel, noRel, noRel,
   (fun s => if s = 0 then [7] else []), (fun s => if s = 0 then [5] else [])⟩

/-- A provider knowing the multi-word entry `a_b` (synset 0) and `car`
(synset 1); everything else is unknown. -/
def senses0 : String → List Nat :=
  fun s => if s = "a_b" then [0] else if s = "car" then [1] else []

/-- One compiled relation pair: gloss against gloss, weight 1. -/
def rels0 : List (List RelFunc × List RelFunc × Rat) :=
  [([RelFunc.concat_definitions], [RelFunc.concat_definitions], 1)]

/-! ## Claim theorems -/

/-- Claim C1, code evaluated at the failing input: `WORDNET_SIM_FUNC_MAP` sends
the token `hypo` to `get_holonyms` (dat reader line 16), so compiling
`hypo-glos` yields the holonym-expansion step, not the hyponym expansion the
claim describes; on a synset with hyponyms `[1]`, instance hyponyms `[2]` and
member holonyms `[3]`, the compiled step returns `[3]` where the claimed
hyponym expansion returns `[1, 2]`. -/
theorem c1_hypo_compiles_to_holonyms :
    WORDNET_SIM_FUNC_MAP "hypo" = some RelFunc.get_holonyms ∧
    WORDNET_SIM_FUNC_MAP "hypo" ≠ some RelFunc.get_hyponyms ∧
    read_relation_file "f" ["RelationFile", "hypo-glos"] =
      Except.ok [([RelFunc.get_holonyms, RelFunc.concat_definitions],
        [RelFunc.concat_definitions], 1)] ∧
    get_hyponyms db1 [0] = [1, 2] ∧
    get_holonyms db1 [0] = [3] ∧
    applyFunc db1 RelFunc.get_holonyms [Item.syn 0] 0 = some ([Item.syn 3], 0) ∧
    ([3] : List Nat) ≠ [1, 2] :=
  ⟨rfl, by decide, rfl, rfl, rfl, rfl, by decide⟩

/-- Claim C2, code evaluated at the failing input: the relation token `sim`
maps to `get_similar_tos`, whose underlying `_get_similar_tos` returns
`synset.attributes()` (wordnet_wrappers line 90) although its docstring names
`Synset.similar_tos()`; on a synset with similar-tos `[5]` and attributes
`[7]`, the step returns the attributes `[7]`, not the similar-to targets. -/
theorem c2_sim_step_returns_attributes :
    WORDNET_SIM_FUNC_MAP "sim" = some RelFunc.get_similar_tos ∧
    db1.similar_tos 0 = [5] ∧
    db1.attributes 0 = [7] ∧
    get_similar_tos db1 [0] = [7] ∧
    applyFunc db1 RelFunc.get_similar_tos [Item.syn 0] 0 = some ([Item.syn 7], 0) ∧
    ([7] : List Nat) ≠ [5] :=
  ⟨rfl, rfl, rfl, rfl, rfl, by decide⟩

/-- Claim C3, counterexample: `space_pat` matches only the space character, so
the tab in `"a\tb"` survives `space_sub` and the lookup key still contains
whitespace; under a provider that knows the entry `a_b`, the actual
`getWordRelatedness` score (0) differs from the score the claim's
replace-all-whitespace reading predicts (1). -/
theorem c3_whitespace_not_replaced_cex :
    space_sub "a\tb" = "a\tb" ∧
    Char.isWhitespace (Char.ofNat 9) = true ∧
    whitespace_sub "a\tb" = "a_b" ∧
    getWordRelatedness [] db0 rels0 senses0 "a\tb" "car" = some 0 ∧
    getSynsetRelatedness [] db0 rels0 ((senses0 (whitespace_sub "a\tb")).map Item.syn)
      ((senses0 (whitespace_sub "car")).map Item.syn) = some 1 ∧
    (some (0 : Rat)) ≠ some (1 : Rat) := by
  have hwf : ∀ r ∈ rels0, WFchain r.2.1 := by
    intro r hr
    rcases List.mem_singleton.mp hr with rfl
    exact ⟨[], RelFunc.concat_definitions, rfl,
      fun f hf => absurd hf (List.not_mem_nil f), rfl⟩
  refine ⟨by decide, by decide, by decide, ?_, ?_, by simp⟩
  · rw [getWordRelatedness]
    rw [show senses0 (space_sub "a\tb") = [] from by decide]
    rw [getSynsetRelatedness]
    simp only [List.map_nil]
    exact synsetRelGo_nil_left [] db0 rels0 _ 0 0 hwf (allSyn_mapSyn _)
  · rw [show senses0 (whitespace_sub "a\tb") = [0] from by decide]
    rw [show senses0 (whitespace_sub "car") = [1] from by decide]
    rw [show getSynsetRelatedness [] db0 rels0 ([0].map Item.syn) ([1].map Item.syn) =
      some ((0 : Rat) + ((1 : Nat) : Rat) * 1) from rfl]
    simp only [Option.some.injEq]
    push_cast
    ring

/-- Claim C3 (amended): `getWordRelatedness` replaces every space character
(U+0020) — and only spaces, not other whitespace — in each word with the
underscore before looking the word up, and returns `getSynsetRelatedness` of
the two resulting sense groups. -/
theorem c3_space_replacement (stop : List String) (db : WNDB)
    (rels : List (List RelFunc × List RelFunc × Rat)) (senses : String → List Nat)
    (wa wb w : String) (ch : Char) (hch : ch ∈ (space_sub w).toList) :
    getWordRelatedness stop db rels senses wa wb =
      getSynsetRelatedness stop db rels ((senses (space_sub wa)).map Item.syn)
        ((senses (space_sub wb)).map Item.syn) ∧
    ch ≠ Char.ofNat 32 ∧
    (space_sub w).toList =
      w.toList.map (fun c0 => if c0 = Char.ofNat 32 then Char.ofNat 95 else c0) := by
  refine ⟨rfl, ?_, rfl⟩
  have hm : ch ∈ w.toList.map (fun c0 => if c0 = Char.ofNat 32 then Char.ofNat 95 else c0) :=
    hch
  obtain ⟨c0, _, hmap⟩ := List.mem_map.mp hm
  by_cases hcc : c0 = Char.ofNat 32
  · rw [if_pos hcc] at hmap
    rw [← hmap]
    decide
  · rw [if_neg hcc] at hmap
    rw [← hmap]
    exact hcc

/-- Witness for the amended C3, at a concrete instance. -/
theorem c3_space_replacement_witness :
    (getWordRelatedness [] db0 rels0 senses0 "x" "y" =
      getSynsetRelatedness [] db0 rels0 ((senses0 (space_sub "x")).map Item.syn)
        ((senses0 (space_sub "y")).map Item.syn) ∧
    Char.ofNat 97 ≠ Char.ofNat 32 ∧
    (space_sub "a b").toList =
      "a b".toList.map (fun c0 => if c0 = Char.ofNat 32 then Char.ofNat 95 else c0)) :=
  c3_space_replacement [] db0 rels0 senses0 "x" "y" "a b" (Char.ofNat 97) (by decide)

/-- Claim C4 (amended): every line-level format error (separator, weight,
bracket, unknown-token) raises an error whose message contains the lowercased
offending line, and such errors always abort the read (a successful read means
every body line compiled); the missing/mismatched-header error, by contrast,
interpolates the file location, not the header line. -/
theorem c4_format_errors_carry_line (floc line e header : String) (rest : List String)
    (h : compileLine floc line = Except.error e)
    (hhead : String.mk (trimWS header.toList) ≠ "RelationFile") :
    strContains e (lowerStr line) = true ∧
    read_relation_file floc (header :: rest) = Except.error (headerErrMsg floc) ∧
    (∀ out, read_relation_file floc ("RelationFile" :: rest) = Except.ok out →
      ∀ l ∈ rest, ∃ trip, compileLine floc l = Except.ok trip) := by
  refine ⟨compileLine_error_contains floc line e h, ?_, ?_⟩
  · rw [read_relation_file, if_neg hhead]
  · intro out hout l hl
    exact read_ok_all_lines_ok floc rest out hout l hl

/-- Witness for the amended C4, at a concrete failing line and bad header. -/
theorem c4_format_errors_carry_line_witness :
    strContains (lineErrMsg "f" (lowerStr "foo-glos") unknownKind) (lowerStr "foo-glos") = true ∧
    read_relation_file "f" ("NotRelationFile" :: ["hype-glos"]) =
      Except.error (headerErrMsg "f") ∧
    (∀ out, read_relation_file "f" ("RelationFile" :: ["hype-glos"]) = Except.ok out →
      ∀ l ∈ ["hype-glos"], ∃ trip, compileLine "f" l = Except.ok trip) :=
  c4_format_errors_carry_line "f" "foo-glos"
    (lineErrMsg "f" (lowerStr "foo-glos") unknownKind) "NotRelationFile" ["hype-glos"]
    rfl (by decide)

/-- Claim C4, counterexample: the header error message does not contain the
offending header line's content (in any casing); it contains the file location
instead. -/
theorem c4_header_error_lacks_line_cex :
    read_relation_file "f.dat" ["NotRelationFile", "hype-glos"] =
      Except.error (headerErrMsg "f.dat") ∧
    strContains (headerErrMsg "f.dat") "NotRelationFile" = false ∧
    strContains (headerErrMsg "f.dat") (lowerStr "NotRelationFile") = false ∧
    strContains (headerErrMsg "f.dat") "f.dat" = true :=
  ⟨rfl, by decide, by decide, by decide⟩

/-- Claim C5: `hype-glos 2.0` compiles to
([hypernym-expand, gloss-expand], [gloss-expand], 2.0); an omitted weight
defaults to 1; a chain whose final token is not glos/example/syns gets a
gloss-expansion step appended, and a terminal token gets none. -/
theorem c5_relation_compiler :
    read_relation_file "lesk-relation.dat" ["RelationFile", "hype-glos 2.0"] =
      Except.ok [([RelFunc.get_hypernyms, RelFunc.concat_definitions],
        [RelFunc.concat_definitions], 2)] ∧
    (∀ floc line afun bfun w, compileLine floc line = Except.ok (afun, bfun, w) →
      (∀ ch ∈ (lowerStr line).toList, ch.isWhitespace = false) → w = 1) ∧
    (∀ toks fs, isTerminalTok (toks.getLastD []) = false →
      finishChain toks fs = fs ++ [RelFunc.concat_definitions]) ∧
    (∀ toks fs, isTerminalTok (toks.getLastD []) = true → finishChain toks fs = fs) := by
  refine ⟨?_, compileLine_default_weight, ?_, ?_⟩
  · have hr : read_relation_file "lesk-relation.dat" ["RelationFile", "hype-glos 2.0"] =
        Except.ok [([RelFunc.get_hypernyms, RelFunc.concat_definitions],
          [RelFunc.concat_definitions],
          ((2 : Nat) : Rat) + ((0 : Nat) : Rat) / ((10 : Rat) ^ (1 : Nat)))] := rfl
    rw [hr]
    simp only [Except.ok.injEq, List.cons.injEq, Prod.mk.injEq, and_true, true_and]
    push_cast
    norm_num
  · intro toks fs h0
    rw [finishChain, if_neg (by rw [h0]; simp)]
  · intro toks fs h0
    rw [finishChain, if_pos h0]

/-- Witness for C5, instantiating the default-weight and gloss-append parts. -/
theorem c5_relation_compiler_witness :
    (1 : Rat) = 1 ∧
    finishChain ["hypo".toList] [RelFunc.get_holonyms] =
      [RelFunc.get_holonyms] ++ [RelFunc.concat_definitions] ∧
    finishChain ["glos".toList] [RelFunc.concat_definitions] = [RelFunc.concat_definitions] :=
  ⟨c5_relation_compiler.2.1 "f" "hypo-glos"
      [RelFunc.get_holonyms, RelFunc.concat_definitions] [RelFunc.concat_definitions] 1
      rfl (by decide),
   c5_relation_compiler.2.2.1 ["hypo".toList] [RelFunc.get_holonyms] (by decide),
   c5_relation_compiler.2.2.2 ["glos".toList] [RelFunc.concat_definitions] (by decide)⟩

set_option maxRecDepth 20000 in
/-- Claim C6, counterexample: the total overlap score is not symmetric.  With
A = [p,q,r,s] and B = [q,r,u,p,q,v,r,s] (no stopwords), three equal-length
longest matches exist; the leftmost-in-first-argument tie-break consumes pq
first when scoring (A,B) (total 4+4 = 8) but qr first when scoring (B,A)
(total 4+1+1 = 6). -/
theorem c6_overlap_score_not_symmetric_cex :
    getTextOverlapScore []
      [Item.word "p", Item.word "q", Item.word "r", Item.word "s"]
      [Item.word "q", Item.word "r", Item.word "u", Item.word "p", Item.word "q",
        Item.word "v", Item.word "r", Item.word "s"] = some 8 ∧
    getTextOverlapScore []
      [Item.word "q", Item.word "r", Item.word "u", Item.word "p", Item.word "q",
        Item.word "v", Item.word "r", Item.word "s"]
      [Item.word "p", Item.word "q", Item.word "r", Item.word "s"] = some 6 ∧
    (some 8 : Option Nat) ≠ some 6 :=
  ⟨by decide, by decide, by decide⟩

/-- Claim C6 (amended): the length of the longest common contiguous block found
by each scan is symmetric in the two inputs, but the total score is not
symmetric in general: when several distinct longest matches of equal length
exist, the leftmost-in-A tie-break can pick different spans in the two
orders and the totals can differ. -/
theorem c6_longest_match_length_symmetric (a b : List Item) :
    (find_longest_match a b).2.2 = (find_longest_match b a).2.2 :=
  le_antisymm (flm_len_le_comm a b) (flm_len_le_comm b a)

/-- Claim C7 (amended): for identical non-empty sequences whose first and last
tokens are not stopwords (interior stopwords allowed), the score is the squared
length. -/
theorem c7_identical_sequences_score (stop : List String) (l : List Item) (hne : l ≠ [])
    (h1 : isStopword stop (l.headD (Item.word "")) = false)
    (h2 : isStopword stop (l.getLastD (Item.word "")) = false) :
    getTextOverlapScore stop l l = some (l.length ^ 2) :=
  score_self stop l hne h1 h2

/-- Witness for the amended C7 at a concrete one-token sequence. -/
theorem c7_identical_sequences_score_witness :
    getTextOverlapScore [] [Item.word "cat"] [Item.word "cat"] =
      some ([Item.word "cat"].length ^ 2) :=
  c7_identical_sequences_score [] [Item.word "cat"] (by decide) (by decide) (by decide)

/-- Claim C7, counterexample: `["the", "cat"]` has no interior positions, so it
contains no interior stopwords, yet scoring it against itself with `the` as a
stopword yields 1 (the leading stopword is trimmed from the single full-length
match), not the claimed L² = 4. -/
theorem c7_boundary_stopword_cex :
    getTextOverlapScore ["the"] [Item.word "the", Item.word "cat"]
      [Item.word "the", Item.word "cat"] = some 1 ∧
    (some 1 : Option Nat) ≠ some ([Item.word "the", Item.word "cat"].length ^ 2) :=
  ⟨by decide, by decide⟩

/-- Claim C8: with tokens_a = [x,y,x,y] and tokens_b = [x,y], neither a
stopword, the scorer counts exactly one length-2 match (scoring 4): the matched
span is replaced by fresh separators in both working copies, so overlapping
placements are never re-counted. -/
theorem c8_no_double_counting (stop : List String)
    (hx : isStopword stop (Item.word "x") = false)
    (hy : isStopword stop (Item.word "y") = false) :
    getTextOverlapScore stop
      [Item.word "x", Item.word "y", Item.word "x", Item.word "y"]
      [Item.word "x", Item.word "y"] = some 4 := by
  have hL : _lengthWithoutStopwords stop [Item.word "x", Item.word "y"] = 2 := by
    rw [_lengthWithoutStopwords]
    rw [show ([Item.word "x", Item.word "y"] : List Item).reverse =
      [Item.word "y", Item.word "x"] from rfl]
    rw [_getLeadingStopwordCount, _getLeadingStopwordCount]
    simp [List.takeWhile_cons, hx, hy]
  have hinner : scoreLoop stop 2 [Item.sep 0, Item.word "x", Item.word "y"]
      [Item.sep 1] 2 = some 0 := by
    rw [show (2 : Nat) = 1 + 1 from rfl, scoreLoop]
    rw [show find_longest_match [Item.sep 0, Item.word "x", Item.word "y"]
      [Item.sep 1] = (0, 0, 0) from by decide]
    simp
  show (match scoreLoop stop 2 [Item.sep 0, Item.word "x", Item.word "y"]
      [Item.sep 1] 2 with
    | some s => some (_lengthWithoutStopwords stop [Item.word "x", Item.word "y"] ^ 2 + s)
    | none => none) = some 4
  rw [hinner, hL]
  rfl

/-- Witness for C8 with the empty stopword list. -/
theorem c8_no_double_counting_witness :
    getTextOverlapScore []
      [Item.word "x", Item.word "y", Item.word "x", Item.word "y"]
      [Item.word "x", Item.word "y"] = some 4 :=
  c8_no_double_counting [] rfl rfl

/-- Claim C9 (amended): when every compiled chain is well formed (sense-to-sense
steps followed by one sense-to-token step, the shape the compiler's implicit
gloss append produces for sensibly authored files), a word with an empty sense
group makes `getWordRelatedness` return 0 whatever the other word's group is:
each pair's expansion of the empty group is the empty token sequence, whose
overlap score is 0, so every weighted contribution is 0. -/
theorem c9_unknown_word_scores_zero (stop : List String) (db : WNDB)
    (rels : List (List RelFunc × List RelFunc × Rat)) (senses : String → List Nat)
    (word_a word_b : String)
    (hwf : ∀ r ∈ rels, WFchain r.2.1)
    (ha : senses (space_sub word_a) = []) :
    getWordRelatedness stop db rels senses word_a word_b = some 0 := by
  rw [getWordRelatedness, ha, getSynsetRelatedness]
  simp only [List.map_nil]
  exact synsetRelGo_nil_left stop db rels _ 0 0 hwf (allSyn_mapSyn _)

/-- Witness for the amended C9. -/
theorem c9_unknown_word_scores_zero_witness :
    getWordRelatedness [] db0 rels0 (fun _ => []) "zzzznotaword" "car" = some 0 :=
  c9_unknown_word_scores_zero [] db0 rels0 (fun _ => []) "zzzznotaword" "car"
    (by
      intro r hr
      rcases List.mem_singleton.mp hr with rfl
      exact ⟨[], RelFunc.concat_definitions, rfl,
        fun f hf => absurd hf (List.not_mem_nil f), rfl⟩)
    rfl

/-- Claim C9, counterexample: the claim fails without the well-formedness
proviso.  The line `glos-glos(hype)` compiles (to a chain that applies a
sense-to-sense step to word tokens); with word_a unknown but word_b known,
evaluating the B chain raises (modelled as `none`), so `getWordRelatedness`
does not return 0. -/
theorem c9_illformed_chain_raises_cex :
    read_relation_file "f" ["RelationFile", "glos-glos(hype)"] =
      Except.ok [([RelFunc.concat_definitions],
        [RelFunc.concat_definitions, RelFunc.get_hypernyms, RelFunc.concat_definitions],
        1)] ∧
    senses0 (space_sub "zzzznotaword") = [] ∧
    getWordRelatedness [] db0
      [([RelFunc.concat_definitions],
        [RelFunc.concat_definitions, RelFunc.get_hypernyms, RelFunc.concat_definitions],
        1)]
      senses0 "zzzznotaword" "car" = none ∧
    (none : Option Rat) ≠ some 0 :=
  ⟨rfl, rfl, by decide, by decide⟩

/-- Claim C10: the matching loop terminates on every pair of finite token
lists.  Each productive iteration replaces a genuinely matched span (positive
length) in both working copies by two distinct fresh separators, strictly
decreasing the count of common token occurrences; so the loop exits within
`interCount a b + 1` scans, and any fuel at least that bound gives the same
result (the fuelled model agrees with the source's unbounded `while` loop). -/
theorem c10_overlap_loop_terminates (stop : List String) (a b : List Item) (fuel : Nat)
    (hf : interCount a b + 1 ≤ fuel) :
    scoreLoop stop fuel a b (max (maxSepIdx a) (maxSepIdx b)) =
      getTextOverlapScore stop a b ∧
    (getTextOverlapScore stop a b).isSome := by
  have hs := getTextOverlapScore_isSome stop a b
  refine ⟨?_, hs⟩
  exact scoreLoop_fuel_stable stop (interCount a b + 1) fuel a b
    (max (maxSepIdx a) (maxSepIdx b)) hf hs

/-- Witness for C10 at a concrete pair. -/
theorem c10_overlap_loop_terminates_witness :
    (scoreLoop [] 5 [Item.word "x"] [Item.word "x"]
        (max (maxSepIdx [Item.word "x"]) (maxSepIdx [Item.word "x"])) =
      getTextOverlapScore [] [Item.word "x"] [Item.word "x"]) ∧
    (getTextOverlapScore [] [Item.word "x"] [Item.word "x"]).isSome :=
  c10_overlap_loop_terminates [] [Item.word "x"] [Item.word "x"] 5 (by decide)

end PyWNSim
